import Mathlib

/-!
Composite errors (`errors.go`)

A shallow embedding of the Go package `errors`: the slice type
`Errors []*Error`, the free function `Add`, the methods `Errors.Add`,
`Errors.Error`, `Errors.Is` and the constructor `New`.

Go values are modelled with an explicit heap.  A `*Errors` and a `*Error`
are pointers: `none` is Go's `nil`, `some a` is the address of an allocated
cell.  An `Errors` cell holds a slice header: the address of the underlying
array, the offset of the first element in it, the length and the capacity.
Underlying arrays are heap objects of their own, so that two slices can share
one.  The built-in `append` writes into the underlying array when the capacity
allows and allocates a new array otherwise; how much spare capacity a new array
gets is left to the Go runtime and is the parameter `spare` of the functions
that append.  Every `te := append(*e, x); e = &te` of the source allocates a new
cell for the variable `te`, whose address escapes.  A nil pointer dereference
is a run-time panic and is modelled by `Except.error`.

The `glog` call of `Errors.Add` only writes to the logging sink; it changes
neither the heap nor the returned pointer and is left out of the model.
-/

namespace GoErrors

/-- A Go pointer: `none` is `nil`, `some a` the address of a heap cell. -/
abbrev Ptr := Option Nat

/-- Modelled from the spec: the leaf type `Error`, whose declaration is not part
of `errors.go`.  The spec gives a Leaf Error a `message` and an optional
`templateId`; the captured stack trace is not read by any function embedded here
and is left out. -/
structure Error where
  message : String
  templateId : Option Nat
  deriving DecidableEq, Repr

/-- The elements of a value of the Go type `Errors []*Error`, in order. -/
abbrev Errors := List Ptr

/-- A Go slice header of type `Errors`: the underlying array, the position of
the first element in it, the length and the capacity. -/
structure Slice where
  array : Nat
  off : Nat
  len : Nat
  cap : Nat
  deriving DecidableEq, Repr

/-- Run-time panics. `invalidAddress` cannot happen in Go (a non-nil pointer
always refers to an allocated cell, and a slice header always lies within its
array); it is the result of using an address or a header that the model heap
does not back. -/
inductive Panic where
  | nilDereference
  | invalidAddress
  deriving DecidableEq, Repr

/-- The heap: `leaves[a]` is the `Error` struct at leaf address `a`,
`arrays[a]` the underlying array at array address `a` (all its slots, used or
spare), `lists[a]` the slice header stored in the `Errors` variable at
address `a`. -/
structure Heap where
  leaves : List Error
  arrays : List (List Ptr)
  lists : List Slice
  deriving DecidableEq, Repr

/-- A dynamically typed Go value (`interface{}` or `error`). -/
inductive Value where
  /-- the nil interface -/
  | nil
  /-- dynamic type `*Error`; the pointer itself may be nil -/
  | leaf (p : Ptr)
  /-- dynamic type `*Errors`; the pointer itself may be nil -/
  | composite (p : Ptr)
  /-- any other dynamic type, given by its default string rendering -/
  | other (rendering : String)
  deriving DecidableEq, Repr

/-- The load `*e` of the slice header that an `*Errors` pointer refers to. -/
def Heap.load (h : Heap) (e : Ptr) : Except Panic Slice :=
  match e with
  | none => .error .nilDereference
  | some a =>
    match h.lists[a]? with
    | some s => .ok s
    | none => .error .invalidAddress

/-- The elements `s[0], ..., s[len(s)-1]` of a slice, read from its underlying
array. -/
def Heap.elems (h : Heap) (s : Slice) : Except Panic Errors :=
  match h.arrays[s.array]? with
  | some arr =>
    if s.len ≤ s.cap ∧ s.off + s.cap ≤ arr.length then
      .ok ((arr.drop s.off).take s.len)
    else
      .error .invalidAddress
  | none => .error .invalidAddress

/-- The element sequence of the Composite that `e` refers to: the header `*e`
and the elements it denotes. -/
def Heap.deref (h : Heap) (e : Ptr) : Except Panic Errors := do
  let s ← h.load e
  h.elems s

/-- The element `s[i]` of a slice, read from its underlying array. -/
def Heap.index (h : Heap) (s : Slice) (i : Nat) : Except Panic Ptr :=
  match h.arrays[s.array]? with
  | some arr =>
    match arr[s.off + i]? with
    | some p => .ok p
    | none => .error .invalidAddress
  | none => .error .invalidAddress

/-- The dereference of an `*Error` pointer. -/
def Heap.derefLeaf (h : Heap) (p : Ptr) : Except Panic Error :=
  match p with
  | none => .error .nilDereference
  | some a =>
    match h.leaves[a]? with
    | some x => .ok x
    | none => .error .invalidAddress

/-- A new `Errors` variable holding the header `s`, and its address (`&te`). -/
def Heap.allocErrors (h : Heap) (s : Slice) : Heap × Ptr :=
  ({ h with lists := h.lists ++ [s] }, some h.lists.length)

/-- Go's `make(Errors, 0)`: an empty slice of capacity 0. -/
def Heap.makeErrors (h : Heap) : Heap × Slice :=
  ({ h with arrays := h.arrays ++ [[]] }, { array := h.arrays.length, off := 0, len := 0, cap := 0 })

/-- Go's built-in `append(s, x)` for one element.  If the capacity of `s` is
larger than its length, `x` is written into the underlying array right after the
last element and the result shares that array.  Otherwise a new array is
allocated that holds the elements of `s`, then `x`, then `spare (cap s)` unused
slots (nil pointers), and the result refers to it. -/
def Heap.append (spare : Nat → Nat) (h : Heap) (s : Slice) (x : Ptr) :
    Except Panic (Heap × Slice) :=
  match h.arrays[s.array]? with
  | none => .error .invalidAddress
  | some arr =>
    if s.len < s.cap then
      .ok ({ h with arrays := h.arrays.set s.array (arr.set (s.off + s.len) x) },
        { s with len := s.len + 1 })
    else
      .ok ({ h with arrays := h.arrays ++
              [(arr.drop s.off).take s.len ++ [x] ++ List.replicate (spare s.cap) none] },
        { array := h.arrays.length, off := 0, len := s.len + 1,
          cap := s.len + 1 + spare s.cap })

/-- The spare capacity that the Go runtime gives in the examples: a slice of
capacity 0 grows to capacity 1, and one of capacity `c > 0` to capacity `2 * c`,
which leaves `c - 1` unused slots after the appended element (the growth
0, 1, 2, 4, 8 of a small slice of pointers). -/
def goSpare (c : Nat) : Nat := c - 1

/-- Modelled from the spec: `NewError`, which is not part of `errors.go`.  The
spec's `construct(value)` stringifies the value into `message`, leaves
`templateId` absent and never fails; it returns a pointer to a new `Error`. -/
def NewError (h : Heap) (rendering : String) : Heap × Ptr :=
  ({ h with leaves := h.leaves ++ [{ message := rendering, templateId := none }] },
    some h.leaves.length)

/-- The loop of `Errors.Add` for an `*Errors` argument:
`for _, err := range *ee { te := append(*e, err); e = &te }`.
The range expression `*ee` is evaluated once, to the header `errs`; iteration
`i` reads the element `errs[i]` from the underlying array as it is at that
moment.  `i` is the index of the next iteration and `n` the number of
iterations left; the loop is entered with `i = 0` and `n = len(errs)`. -/
def Errors.Add.loop (spare : Nat → Nat) (errs : Slice) :
    Nat → Nat → Heap → Ptr → Except Panic (Heap × Ptr)
  | _, 0, h, e => .ok (h, e)
  | i, n + 1, h, e => do
    let err ← h.index errs i
    let cur ← h.load e
    let (h1, te) ← h.append spare cur err
    let (h2, e2) := h1.allocErrors te
    Errors.Add.loop spare errs (i + 1) n h2 e2

mutual

/-- The method `func (e *Errors) Add(ee interface{}) *Errors`. -/
def Errors.Add (spare : Nat → Nat) (h : Heap) (e : Ptr) (ee : Value) :
    Except Panic (Heap × Ptr) :=
  if ee ≠ Value.nil then do
    let (h, e) ← (if e = none then New spare h Value.nil else pure (h, e))
    match ee with
    | .leaf p => do
      let cur ← h.load e
      let (h1, te) ← h.append spare cur p
      pure (h1.allocErrors te)
    | .composite p => do
      let errs ← h.load p
      Errors.Add.loop spare errs 0 errs.len h e
    | .other s => do
      let (h1, err) := NewError h s
      let cur ← h1.load e
      let (h2, te) ← h1.append spare cur err
      pure (h2.allocErrors te)
    | .nil => do
      let (h1, err) := NewError h "<nil>"
      let cur ← h1.load e
      let (h2, te) ← h1.append spare cur err
      pure (h2.allocErrors te)
  else if e = none then
    pure (h, none)
  else
    pure (h, e)
termination_by 1

/-- The constructor `func New(err interface{}) *Errors`. -/
def New (spare : Nat → Nat) (h : Heap) (err : Value) : Except Panic (Heap × Ptr) :=
  if _hne : err ≠ Value.nil then
    let (h0, s) := h.makeErrors
    let (h1, e) := h0.allocErrors s
    Errors.Add spare h1 e err
  else
    pure (h, none)
termination_by (if err = Value.nil then 0 else 2)
decreasing_by
  all_goals simp_all

end

/-- The free function `func Add(e interface{}, ee interface{}) *Errors`. -/
def Add (spare : Nat → Nat) (h : Heap) (e : Value) (ee : Value) : Except Panic (Heap × Ptr) :=
  match e with
  | .composite errs => Errors.Add spare h errs ee
  | .leaf err => do
    let (h1, errs) ← New spare h (.leaf err)
    Errors.Add spare h1 errs ee
  | _ => do
    let (h1, errs) ← New spare h ee
    Errors.Add spare h1 errs ee

/-- Modelled from the spec: the method `Error()` of the leaf type `*Error`, which
is not part of `errors.go`.  The spec's `render()` returns `message`; reading the
field through a nil receiver is a nil pointer dereference. -/
def Error.Error (h : Heap) (p : Ptr) : Except Panic String := do
  let x ← h.derefLeaf p
  pure x.message

/-- Go's `strings.Join(elems, sep)`: the empty string for no element, the
element itself for one, otherwise the first element followed by `sep` and the
next element for each further element, built left to right. -/
def strings.Join (elems : List String) (sep : String) : String :=
  match elems with
  | [] => ""
  | [x] => x
  | x :: rest => rest.foldl (fun b s => b ++ sep ++ s) x

/-- The loop of `Errors.Error`:
`for i := range *e { ret = append(ret, (*e)[i].Error()) }`. -/
def Errors.Error.loop (h : Heap) : List Ptr → List String → Except Panic (List String)
  | [], ret => .ok ret
  | p :: rest, ret => do
    let m ← Error.Error h p
    Errors.Error.loop h rest (ret ++ [m])

/-- The method `func (e *Errors) Error() string`. -/
def Errors.Error (h : Heap) (e : Ptr) : Except Panic String :=
  if e = none then
    pure ""
  else do
    let xs ← h.deref e
    let ret ← Errors.Error.loop h xs []
    pure (strings.Join ret "\n")

/-- Rank of an argument of `Errors.Is`: the recursive call is made on an element
of a `*Errors` argument, which is a `*Error`. -/
def Value.rank : Value → Nat
  | .composite _ => 1
  | _ => 0

mutual

/-- The method `func (e *Errors) Is(ee error) bool`.  Its parameter `Is` is the
free function `Is` of the package (the leaf matcher), which is not part of
`errors.go`. -/
def Errors.Is (Is : Heap → Value → Value → Bool) (h : Heap) (e : Ptr) (ee : Value) :
    Except Panic Bool :=
  if e = none ∧ ee = Value.nil then
    pure true
  else if e = none ∨ ee = Value.nil then
    pure false
  else
    match ee with
    | .composite errs => do
      let xs ← h.deref errs
      Errors.Is.loop Is h e xs
    | ee => do
      let xs ← h.deref e
      pure (xs.any (fun err => Is h (.leaf err) ee))
termination_by (2 * ee.rank, 0)
decreasing_by
  simp [Value.rank, Prod.lex_def]

/-- The first loop of `Errors.Is`:
`for _, err := range *errs { if e.Is(err) { return true } }`, followed by the
final `return false`. -/
def Errors.Is.loop (Is : Heap → Value → Value → Bool) (h : Heap) (e : Ptr) :
    List Ptr → Except Panic Bool
  | [] => pure false
  | err :: rest => do
    if (← Errors.Is Is h e (.leaf err)) then
      pure true
    else
      Errors.Is.loop Is h e rest
termination_by errs => (1, errs.length)
decreasing_by
  all_goals simp [Value.rank, Prod.lex_def]

end

/-- Modelled from the spec: the free function `Is` on two Leaf Errors, which is
not part of `errors.go`.  Case 5 of the spec's Identity Matcher: two Leaf Errors
match iff both carry the same template identity, or neither carries a template
identity and their rendered messages are equal. -/
def Is (x y : Error) : Bool :=
  (x.templateId.isSome && x.templateId == y.templateId) ||
    (x.templateId.isNone && y.templateId.isNone && x.message == y.message)

/-- Modelled from the spec: the Template Factory behind the type `Errf`, whose
constructor `Newf` is not part of `errors.go`.  A factory is bound to a template
identity and a format string. -/
structure Errf where
  templateId : Nat
  format : String
  deriving DecidableEq, Repr

/-- Modelled from the spec: `Newf`, the spec's `defineTemplate(formatString)`.  It
returns a factory bound to a fresh, unique template identity and the format
string; `next` is the supply of identities not handed out yet, and the new
supply is returned with the factory. -/
def Newf (next : Nat) (format : String) : Nat × Errf :=
  (next + 1, { templateId := next, format := format })

/-- Modelled from the spec: the call `f(args...)` of a factory.  It renders the
format string with the arguments into the message and stamps the Leaf Error with
the template identity of the factory.  The rendering (Go's `fmt`) is the
parameter `sprintf`. -/
def Errf.call (sprintf : String → List Int → String) (f : Errf) (args : List Int) : Error :=
  { message := sprintf f.format args, templateId := some f.templateId }

/-- A heap with two leaves, `A` at address 0 and `B` at address 1, no underlying
array and no `Errors` cell. -/
def heapAB : Heap :=
  { leaves := [{ message := "A", templateId := none }, { message := "B", templateId := none }],
    arrays := [],
    lists := [] }

/-- A heap with the leaves `A` (address 0) and `B` (address 1) and seven
Composites: cell 0 holds `[A, B]`, cell 1 `[B]`, cell 2 no element, cell 3
`[B, A, B]`, cell 4 `[A]`, each filling an array of its own; cells 5 and 6 share
the array 5 of capacity 4, cell 5 holding `[A, B, A]` and cell 6
`[A, B, A, B]`. -/
def heapEx : Heap :=
  { leaves := [{ message := "A", templateId := none }, { message := "B", templateId := none }],
    arrays := [[some 0, some 1], [some 1], [], [some 1, some 0, some 1], [some 0],
      [some 0, some 1, some 0, some 1]],
    lists := [{ array := 0, off := 0, len := 2, cap := 2 },
      { array := 1, off := 0, len := 1, cap := 1 },
      { array := 2, off := 0, len := 0, cap := 0 },
      { array := 3, off := 0, len := 3, cap := 3 },
      { array := 4, off := 0, len := 1, cap := 1 },
      { array := 5, off := 0, len := 3, cap := 4 },
      { array := 5, off := 0, len := 4, cap := 4 }] }
/-- The heap `h1` is `h` after steps that allocate cells and arrays and write
into the arrays of `h` only in array `a0` at positions from `pos` on: leaves and
existing cells are kept, every array of `h` keeps its length, and its slots
other than those of `a0` from `pos` on keep their content. -/
def Heap.Frame (a0 pos : Nat) (h h1 : Heap) : Prop :=
  h1.leaves = h.leaves ∧ (∃ cells, h1.lists = h.lists ++ cells) ∧
    ∀ a arr, h.arrays[a]? = some arr →
      ∃ arr1, h1.arrays[a]? = some arr1 ∧ arr1.length = arr.length ∧
        ∀ j, (a ≠ a0 ∨ j < pos) → arr1[j]? = arr[j]?

/-! ## Heap lemmas -/

theorem Heap.elems_ok_iff (h : Heap) (s : Slice) (xs : Errors) :
    h.elems s = .ok xs ↔
      ∃ arr, h.arrays[s.array]? = some arr ∧ s.len ≤ s.cap ∧ s.off + s.cap ≤ arr.length ∧
        (arr.drop s.off).take s.len = xs := by
  unfold Heap.elems
  cases harr : h.arrays[s.array]? with
  | none => simp
  | some arr =>
    by_cases hwf : s.len ≤ s.cap ∧ s.off + s.cap ≤ arr.length
    · simp [hwf]
    · simp only [hwf, if_false]
      constructor
      · intro hcontra
        simp at hcontra
      · rintro ⟨arr1, harr1, h1, h2, -⟩
        simp at harr1
        subst harr1
        exact absurd ⟨h1, h2⟩ hwf

theorem Heap.load_ok_iff (h : Heap) (e : Ptr) (s : Slice) :
    h.load e = .ok s ↔ ∃ a, e = some a ∧ h.lists[a]? = some s := by
  unfold Heap.load
  cases e with
  | none => simp
  | some a =>
    cases hget : h.lists[a]? with
    | none => simp [hget]
    | some t => simp [hget]

theorem Heap.deref_ok_iff (h : Heap) (e : Ptr) (xs : Errors) :
    h.deref e = .ok xs ↔ ∃ s, h.load e = .ok s ∧ h.elems s = .ok xs := by
  unfold Heap.deref
  cases hl : h.load e with
  | error p => simp [bind, Except.bind]
  | ok s => simp [bind, Except.bind]

theorem Heap.elems_length (h : Heap) (s : Slice) (xs : Errors) (hs : h.elems s = .ok xs) :
    xs.length = s.len := by
  obtain ⟨arr, -, h1, h2, rfl⟩ := (Heap.elems_ok_iff h s xs).mp hs
  simp
  omega

theorem Heap.deref_ok_lt (h : Heap) (a : Nat) (xs : Errors)
    (hp : h.deref (some a) = .ok xs) : a < h.lists.length := by
  obtain ⟨s, hl, -⟩ := (Heap.deref_ok_iff h (some a) xs).mp hp
  obtain ⟨b, hb, hget⟩ := (Heap.load_ok_iff h (some a) s).mp hl
  cases hb
  exact (List.getElem?_eq_some_iff.mp hget).1

theorem Heap.deref_fresh (h : Heap) (a : Nat) (hge : h.lists.length ≤ a) :
    h.deref (some a) = .error .invalidAddress := by
  simp [Heap.deref, Heap.load, List.getElem?_eq_none hge, bind, Except.bind]

theorem Heap.deref_none (h : Heap) : h.deref none = .error .nilDereference := by
  simp [Heap.deref, Heap.load, bind, Except.bind]

theorem Heap.ne_none_of_deref (h : Heap) (e : Ptr) (xs : Errors) (he : h.deref e = .ok xs) :
    e ≠ none := by
  intro h0
  rw [h0, Heap.deref_none] at he
  simp at he


/-! ## Arrays -/

theorem List.take_drop_congr_of_getElem? (arr1 arr : List Ptr) (off len : Nat)
    (hsame : ∀ j, j < off + len → arr1[j]? = arr[j]?) :
    (arr1.drop off).take len = (arr.drop off).take len := by
  apply List.ext_getElem?
  intro k
  rw [List.getElem?_take, List.getElem?_take, List.getElem?_drop, List.getElem?_drop]
  split
  · exact hsame _ (by omega)
  · rfl

theorem List.take_drop_set_next (arr : List Ptr) (off len : Nat) (x : Ptr)
    (hlt : off + len < arr.length) :
    ((arr.set (off + len) x).drop off).take (len + 1) = (arr.drop off).take len ++ [x] := by
  apply List.ext_getElem?
  intro k
  have hlen : ((arr.drop off).take len).length = len := by
    simp
    omega
  rw [List.getElem?_take, List.getElem?_drop, List.getElem?_set]
  by_cases hk : k < len
  · rw [List.getElem?_append_left (by omega), List.getElem?_take, List.getElem?_drop]
    simp [hk, show k < len + 1 by omega, show off + len ≠ off + k by omega]
  · by_cases hk2 : k = len
    · subst hk2
      rw [List.getElem?_append_right (by omega)]
      simp [hlen, hlt]
    · rw [List.getElem?_append_right (by omega)]
      simp [hlen, show ¬ k < len + 1 by omega]
      omega

theorem List.take_succ_drop_of_getElem? (arr : List Ptr) (p n : Nat) (x : Ptr)
    (hx : arr[p]? = some x) :
    (arr.drop p).take (n + 1) = x :: (arr.drop (p + 1)).take n := by
  obtain ⟨hlt, hget⟩ := List.getElem?_eq_some_iff.mp hx
  rw [List.drop_eq_getElem_cons hlt, List.take_succ_cons, hget]


/-! ## Frames -/

theorem Heap.Frame.refl_heap (a0 pos : Nat) (h : Heap) : Heap.Frame a0 pos h h :=
  ⟨rfl, ⟨[], by simp⟩, fun _ arr harr => ⟨arr, harr, rfl, fun _ _ => rfl⟩⟩

theorem Heap.Frame.trans_of_later (a0 pos a1 pos1 : Nat) (h h1 h2 : Heap)
    (h01 : Heap.Frame a0 pos h h1) (h12 : Heap.Frame a1 pos1 h1 h2)
    (hlater : (a1 = a0 ∧ pos ≤ pos1) ∨ h.arrays.length ≤ a1) :
    Heap.Frame a0 pos h h2 := by
  obtain ⟨hl1, ⟨cells1, hc1⟩, harr1⟩ := h01
  obtain ⟨hl2, ⟨cells2, hc2⟩, harr2⟩ := h12
  refine ⟨hl2.trans hl1, ⟨cells1 ++ cells2, by rw [hc2, hc1, List.append_assoc]⟩, ?_⟩
  intro a arr harr
  obtain ⟨arr1, hget1, hlen1, hsame1⟩ := harr1 a arr harr
  obtain ⟨arr2, hget2, hlen2, hsame2⟩ := harr2 a arr1 hget1
  refine ⟨arr2, hget2, hlen2.trans hlen1, ?_⟩
  intro j hj
  have halt : a < h.arrays.length := (List.getElem?_eq_some_iff.mp harr).1
  rw [hsame2 j ?_, hsame1 j hj]
  rcases hlater with ⟨heq, hle⟩ | hfresh
  · rcases hj with hne | hlt
    · exact Or.inl (by rw [heq]; exact hne)
    · exact Or.inr (by omega)
  · exact Or.inl (by omega)

theorem Heap.Frame.after_allocErrors (a0 pos : Nat) (h h1 : Heap) (s : Slice)
    (h01 : Heap.Frame a0 pos h h1) : Heap.Frame a0 pos h (h1.allocErrors s).1 := by
  obtain ⟨hl1, ⟨cells1, hc1⟩, harr1⟩ := h01
  exact ⟨hl1, ⟨cells1 ++ [s], by simp [Heap.allocErrors, hc1]⟩, harr1⟩

theorem Heap.Frame.load_kept (a0 pos : Nat) (h h1 : Heap) (e : Ptr) (s : Slice)
    (h01 : Heap.Frame a0 pos h h1) (hl : h.load e = .ok s) : h1.load e = .ok s := by
  obtain ⟨-, ⟨cells1, hc1⟩, -⟩ := h01
  obtain ⟨a, rfl, hget⟩ := (Heap.load_ok_iff h e s).mp hl
  have hlt : a < h.lists.length := (List.getElem?_eq_some_iff.mp hget).1
  exact (Heap.load_ok_iff h1 (some a) s).mpr
    ⟨a, rfl, by rw [hc1, List.getElem?_append_left hlt]; exact hget⟩

theorem Heap.Frame.elems_kept (a0 pos : Nat) (h h1 : Heap) (t : Slice) (zs : Errors)
    (h01 : Heap.Frame a0 pos h h1) (ht : h.elems t = .ok zs)
    (hout : t.array ≠ a0 ∨ t.off + t.len ≤ pos) : h1.elems t = .ok zs := by
  obtain ⟨-, -, harr1⟩ := h01
  obtain ⟨arr, harr, hcap, hfit, hzs⟩ := (Heap.elems_ok_iff h t zs).mp ht
  obtain ⟨arr1, hget1, hlen1, hsame1⟩ := harr1 t.array arr harr
  refine (Heap.elems_ok_iff h1 t zs).mpr ⟨arr1, hget1, hcap, by omega, ?_⟩
  rw [← hzs]
  apply List.take_drop_congr_of_getElem?
  intro j hj
  apply hsame1
  rcases hout with hne | hle
  · exact Or.inl hne
  · exact Or.inr (by omega)

theorem Heap.Frame.deref_kept (a0 pos : Nat) (h h1 : Heap) (q : Ptr) (t : Slice) (zs : Errors)
    (h01 : Heap.Frame a0 pos h h1) (hl : h.load q = .ok t) (ht : h.elems t = .ok zs)
    (hout : t.array ≠ a0 ∨ t.off + t.len ≤ pos) : h1.deref q = .ok zs :=
  (Heap.deref_ok_iff h1 q zs).mpr
    ⟨t, Heap.Frame.load_kept a0 pos h h1 q t h01 hl, Heap.Frame.elems_kept a0 pos h h1 t zs h01 ht hout⟩

theorem Heap.Frame.array_kept (a0 pos : Nat) (h h1 : Heap) (a : Nat) (arr : List Ptr)
    (h01 : Heap.Frame a0 pos h h1) (harr : h.arrays[a]? = some arr) (hne : a ≠ a0) :
    h1.arrays[a]? = some arr := by
  obtain ⟨-, -, harr1⟩ := h01
  obtain ⟨arr1, hget1, -, hsame1⟩ := harr1 a arr harr
  rw [hget1]
  congr 1
  exact List.ext_getElem? (fun j => hsame1 j (Or.inl hne))

theorem Heap.Frame.array_length_kept (a0 pos : Nat) (h h1 : Heap) (a : Nat) (arr : List Ptr)
    (h01 : Heap.Frame a0 pos h h1) (harr : h.arrays[a]? = some arr) :
    ∃ arr1, h1.arrays[a]? = some arr1 ∧ arr1.length = arr.length := by
  obtain ⟨-, -, harr1⟩ := h01
  obtain ⟨arr1, hget1, hlen1, -⟩ := harr1 a arr harr
  exact ⟨arr1, hget1, hlen1⟩

/-! ## `append` -/

theorem Heap.append_spec (spare : Nat → Nat) (h : Heap) (s : Slice) (xs : Errors) (x : Ptr)
    (hs : h.elems s = .ok xs) :
    ∃ h1 s1, h.append spare s x = .ok (h1, s1) ∧ h1.elems s1 = .ok (xs ++ [x]) ∧
      Heap.Frame s.array (s.off + s.len) h h1 ∧ h1.lists = h.lists ∧
      ((s1.array = s.array ∧ s1.off = s.off ∧ s1.len = s.len + 1) ∨
        h.arrays.length ≤ s1.array) := by
  obtain ⟨arr, harr, hcap, hfit, hxs⟩ := (Heap.elems_ok_iff h s xs).mp hs
  have halt : s.array < h.arrays.length := (List.getElem?_eq_some_iff.mp harr).1
  have hxlen : xs.length = s.len := Heap.elems_length h s xs hs
  by_cases hroom : s.len < s.cap
  · refine ⟨{ h with arrays := h.arrays.set s.array (arr.set (s.off + s.len) x) },
      { s with len := s.len + 1 }, ?_, ?_, ?_, rfl, Or.inl ⟨rfl, rfl, rfl⟩⟩
    · simp [Heap.append, harr, hroom]
    · refine (Heap.elems_ok_iff _ _ _).mpr ⟨arr.set (s.off + s.len) x, ?_, ?_, ?_, ?_⟩
      · simp [List.getElem?_set, halt]
      · show s.len + 1 ≤ s.cap
        omega
      · simpa using hfit
      · show ((arr.set (s.off + s.len) x).drop s.off).take (s.len + 1) = xs ++ [x]
        rw [List.take_drop_set_next arr s.off s.len x (by omega), hxs]
    · refine ⟨rfl, ⟨[], by simp⟩, ?_⟩
      intro a arr0 harr0
      by_cases ha : a = s.array
      · subst ha
        rw [harr] at harr0
        cases harr0
        refine ⟨arr.set (s.off + s.len) x, by simp [List.getElem?_set, halt], by simp, ?_⟩
        intro j hj
        rcases hj with hne | hlt
        · exact absurd rfl hne
        · rw [List.getElem?_set_ne (by omega)]
      · refine ⟨arr0, ?_, rfl, fun _ _ => rfl⟩
        show (h.arrays.set s.array (arr.set (s.off + s.len) x))[a]? = some arr0
        rw [List.getElem?_set_ne (fun hc => ha hc.symm)]
        exact harr0
  · refine ⟨{ h with arrays := h.arrays ++
        [(arr.drop s.off).take s.len ++ [x] ++ List.replicate (spare s.cap) none] },
      { array := h.arrays.length, off := 0, len := s.len + 1, cap := s.len + 1 + spare s.cap },
      ?_, ?_, ?_, rfl, Or.inr (le_refl _)⟩
    · simp [Heap.append, harr, hroom]
    · refine (Heap.elems_ok_iff _ _ _).mpr
        ⟨(arr.drop s.off).take s.len ++ [x] ++ List.replicate (spare s.cap) none, ?_, ?_, ?_, ?_⟩
      · show (h.arrays ++ _)[h.arrays.length]? = _
        exact List.getElem?_concat_length _ _
      · show s.len + 1 ≤ s.len + 1 + spare s.cap
        omega
      · show 0 + (s.len + 1 + spare s.cap) ≤ _
        rw [hxs]
        simp [hxlen]
        omega
      · show (List.drop 0 _).take (s.len + 1) = xs ++ [x]
        rw [hxs, List.drop_zero]
        exact List.take_left' (by simp [hxlen])
    · refine ⟨rfl, ⟨[], by simp⟩, ?_⟩
      intro a arr0 harr0
      have ha : a < h.arrays.length := (List.getElem?_eq_some_iff.mp harr0).1
      refine ⟨arr0, ?_, rfl, fun _ _ => rfl⟩
      show (h.arrays ++ _)[a]? = some arr0
      rw [List.getElem?_append_left ha]
      exact harr0


theorem Heap.Frame.arrays_length_le (a0 pos : Nat) (h h1 : Heap)
    (h01 : Heap.Frame a0 pos h h1) : h.arrays.length ≤ h1.arrays.length := by
  by_contra hlt
  have hlt1 : h1.arrays.length < h.arrays.length := by omega
  obtain ⟨arr1, hget1, -⟩ := Heap.Frame.array_length_kept a0 pos h h1 h1.arrays.length
    (h.arrays[h1.arrays.length]) h01 (List.getElem?_eq_getElem hlt1)
  have := (List.getElem?_eq_some_iff.mp hget1).1
  omega

theorem Heap.load_allocErrors_new (h : Heap) (s : Slice) :
    (h.allocErrors s).1.load (h.allocErrors s).2 = .ok s := by
  simp [Heap.allocErrors, Heap.load]

theorem Heap.elems_allocErrors (h : Heap) (s t : Slice) :
    (h.allocErrors s).1.elems t = h.elems t := rfl

/-! ## The loops and `Errors.Add` -/

theorem Errors.Add.loop_appends (spare : Nat → Nat) (errs : Slice) :
    ∀ (n i : Nat) (h : Heap) (e : Ptr) (c : Slice) (cs : Errors) (arr : List Ptr),
      h.load e = .ok c → h.elems c = .ok cs → h.arrays[errs.array]? = some arr →
      errs.off + i + n ≤ arr.length →
      ∃ h1 r c1 acc, Errors.Add.loop spare errs i n h e = .ok (h1, r) ∧
        h1.load r = .ok c1 ∧ h1.elems c1 = .ok (cs ++ acc) ∧ acc.length = n ∧
        Heap.Frame c.array (c.off + c.len) h h1 ∧
        ((c1.array = c.array ∧ c1.off = c.off ∧ c.len ≤ c1.len) ∨
          h.arrays.length ≤ c1.array) ∧
        (r = e ∨ ∃ a, r = some a ∧ h.lists.length ≤ a) ∧
        (errs.array ≠ c.array → acc = (arr.drop (errs.off + i)).take n) := by
  intro n
  induction n with
  | zero =>
    intro i h e c cs arr hl hc _ _
    exact ⟨h, e, c, [], rfl, hl, by simpa using hc, rfl, Heap.Frame.refl_heap _ _ h,
      Or.inl ⟨rfl, rfl, le_refl _⟩, Or.inl rfl, fun _ => by simp⟩
  | succ n ih =>
    intro i h e c cs arr hl hc harr hfit
    have hilt : errs.off + i < arr.length := by omega
    have halt : errs.array < h.arrays.length := (List.getElem?_eq_some_iff.mp harr).1
    have hidx : h.index errs i = .ok (arr[errs.off + i]) := by
      simp [Heap.index, harr, List.getElem?_eq_getElem hilt]
    obtain ⟨h1, s1, happ, hs1, hF1, hlists1, hpos1⟩ :=
      Heap.append_spec spare h c cs (arr[errs.off + i]) hc
    obtain ⟨arr1, harr1, hlen1⟩ :=
      Heap.Frame.array_length_kept _ _ h h1 errs.array arr hF1 harr
    have hF2 : Heap.Frame c.array (c.off + c.len) h (h1.allocErrors s1).1 :=
      Heap.Frame.after_allocErrors _ _ h h1 s1 hF1
    obtain ⟨h3, r, c3, acc, hrun, hl3, hc3, hacc, hF3, hpos3, hptr3, hdist3⟩ :=
      ih (i + 1) (h1.allocErrors s1).1 (h1.allocErrors s1).2 s1 (cs ++ [arr[errs.off + i]]) arr1
        (Heap.load_allocErrors_new h1 s1) hs1 harr1 (by omega)
    have hlen12 : h.arrays.length ≤ h1.arrays.length :=
      Heap.Frame.arrays_length_le _ _ h h1 hF1
    refine ⟨h3, r, c3, arr[errs.off + i] :: acc, ?_, hl3, by simpa using hc3, by simp [hacc],
      ?_, ?_, ?_, ?_⟩
    · simp only [Errors.Add.loop, hidx, hl, happ, bind, Except.bind]
      exact hrun
    · refine Heap.Frame.trans_of_later _ _ _ _ h _ h3 hF2 hF3 ?_
      rcases hpos1 with ⟨ha, ho, hl1⟩ | hfresh
      · exact Or.inl ⟨ha, by rw [ho, hl1]; omega⟩
      · exact Or.inr hfresh
    · have h2len : (h1.allocErrors s1).1.arrays.length = h1.arrays.length := rfl
      rcases hpos3 with ⟨ha3, ho3, hl3⟩ | hfresh3
      · rcases hpos1 with ⟨ha, ho, hl1⟩ | hfresh
        · exact Or.inl ⟨ha3.trans ha, ho3.trans ho, by omega⟩
        · exact Or.inr (by rw [ha3]; exact hfresh)
      · exact Or.inr (by omega)
    · right
      have hl2 : (h1.allocErrors s1).1.lists.length = h.lists.length + 1 := by
        simp [Heap.allocErrors, hlists1]
      rcases hptr3 with hre | ⟨a, hra, hle⟩
      · exact ⟨h.lists.length, by rw [hre]; simp [Heap.allocErrors, hlists1], le_refl _⟩
      · exact ⟨a, hra, by omega⟩
    · intro hne
      have harr1eq : h1.arrays[errs.array]? = some arr :=
        Heap.Frame.array_kept _ _ h h1 errs.array arr hF1 harr hne
      have : arr1 = arr := by
        rw [harr1] at harr1eq
        exact Option.some.inj harr1eq
      subst this
      have hne1 : errs.array ≠ s1.array := by
        rcases hpos1 with ⟨ha, -, -⟩ | hfresh
        · rw [ha]; exact hne
        · omega
      rw [hdist3 hne1]
      exact (List.take_succ_drop_of_getElem? arr1 (errs.off + i) n _
        (List.getElem?_eq_getElem hilt)).symm


theorem Heap.load_ne_none (h : Heap) (e : Ptr) (s : Slice) (hl : h.load e = .ok s) :
    e ≠ none := by
  intro h0
  simp [h0, Heap.load] at hl

theorem Errors.Add_nil (spare : Nat → Nat) (h : Heap) (e : Ptr) :
    Errors.Add spare h e Value.nil = .ok (h, e) := by
  unfold Errors.Add
  by_cases he : e = none <;> simp [he, pure, Except.pure]

theorem New_nil (spare : Nat → Nat) (h : Heap) : New spare h Value.nil = .ok (h, none) := by
  simp [New, pure, Except.pure]

theorem Errors.Add_leaf_spec (spare : Nat → Nat) (h : Heap) (e : Ptr) (s : Slice) (xs : Errors)
    (p : Ptr) (hl : h.load e = .ok s) (hs : h.elems s = .ok xs) :
    ∃ h1 r s1, Errors.Add spare h e (.leaf p) = .ok (h1, r) ∧ h1.load r = .ok s1 ∧
      h1.elems s1 = .ok (xs ++ [p]) ∧ Heap.Frame s.array (s.off + s.len) h h1 ∧
      ((s1.array = s.array ∧ s1.off = s.off ∧ s1.len = s.len + 1) ∨
        h.arrays.length ≤ s1.array) ∧
      r = some h.lists.length := by
  have hne := Heap.load_ne_none h e s hl
  obtain ⟨h1, s1, happ, hs1, hF1, hlists1, hpos1⟩ := Heap.append_spec spare h s xs p hs
  refine ⟨(h1.allocErrors s1).1, (h1.allocErrors s1).2, s1, ?_, Heap.load_allocErrors_new h1 s1,
    hs1, Heap.Frame.after_allocErrors _ _ h h1 s1 hF1, hpos1, by simp [Heap.allocErrors, hlists1]⟩
  simp [Errors.Add, hne, hl, happ, bind, Except.bind, pure, Except.pure]

theorem Errors.Add_other_spec (spare : Nat → Nat) (h : Heap) (e : Ptr) (s : Slice)
    (xs : Errors) (str : String) (hl : h.load e = .ok s) (hs : h.elems s = .ok xs) :
    ∃ h1 r s1, Errors.Add spare h e (.other str) = .ok (h1, r) ∧ h1.load r = .ok s1 ∧
      h1.elems s1 = .ok (xs ++ [some h.leaves.length]) ∧
      Heap.Frame s.array (s.off + s.len) (NewError h str).1 h1 ∧
      ((s1.array = s.array ∧ s1.off = s.off ∧ s1.len = s.len + 1) ∨
        h.arrays.length ≤ s1.array) ∧
      r = some h.lists.length := by
  have hne := Heap.load_ne_none h e s hl
  have hl0 : (NewError h str).1.load e = .ok s := hl
  have hs0 : (NewError h str).1.elems s = .ok xs := hs
  obtain ⟨h1, s1, happ, hs1, hF1, hlists1, hpos1⟩ :=
    Heap.append_spec spare (NewError h str).1 s xs (some h.leaves.length) hs0
  refine ⟨(h1.allocErrors s1).1, (h1.allocErrors s1).2, s1, ?_, Heap.load_allocErrors_new h1 s1,
    hs1, Heap.Frame.after_allocErrors _ _ _ h1 s1 hF1, hpos1, ?_⟩
  · have happ2 : (NewError h str).1.append spare s (NewError h str).2 = .ok (h1, s1) := happ
    simp [Errors.Add, hne, hl0, happ2, bind, Except.bind, pure, Except.pure]
  · have : h1.lists = h.lists := hlists1
    simp [Heap.allocErrors, this]

theorem Errors.Add_composite_spec (spare : Nat → Nat) (h : Heap) (e ee : Ptr) (c errs : Slice)
    (xs ys : Errors) (hl : h.load e = .ok c) (hc : h.elems c = .ok xs)
    (hle : h.load ee = .ok errs) (hee : h.elems errs = .ok ys) :
    ∃ h1 r c1 zs, Errors.Add spare h e (.composite ee) = .ok (h1, r) ∧ h1.load r = .ok c1 ∧
      h1.elems c1 = .ok zs ∧ zs.take xs.length = xs ∧ zs.length = xs.length + ys.length ∧
      Heap.Frame c.array (c.off + c.len) h h1 ∧
      ((c1.array = c.array ∧ c1.off = c.off ∧ c.len ≤ c1.len) ∨ h.arrays.length ≤ c1.array) ∧
      (r = e ∨ ∃ a, r = some a ∧ h.lists.length ≤ a) ∧
      (errs.array ≠ c.array → zs = xs ++ ys) := by
  have hne := Heap.load_ne_none h e c hl
  obtain ⟨arr, harr, hcap, hfit, hys⟩ := (Heap.elems_ok_iff h errs ys).mp hee
  have hylen : ys.length = errs.len := Heap.elems_length h errs ys hee
  obtain ⟨h1, r, c1, acc, hrun, hl1, hc1, hacc, hF, hpos, hptr, hdist⟩ :=
    Errors.Add.loop_appends spare errs errs.len 0 h e c xs arr hl hc harr (by omega)
  refine ⟨h1, r, c1, xs ++ acc, ?_, hl1, hc1, by simp, by simp [hacc, hylen], hF, hpos, hptr, ?_⟩
  · simp [Errors.Add, hne, hle, bind, Except.bind, pure, Except.pure]
    exact hrun
  · intro hd
    rw [hdist hd]
    simpa using congrArg (xs ++ ·) hys

theorem New_of_ne_nil (spare : Nat → Nat) (h : Heap) (v : Value) (hv : v ≠ Value.nil) :
    New spare h v =
      Errors.Add spare (h.makeErrors.1.allocErrors h.makeErrors.2).1
        (h.makeErrors.1.allocErrors h.makeErrors.2).2 v := by
  rw [New]
  simp [hv]

theorem Heap.make_load (h : Heap) :
    (h.makeErrors.1.allocErrors h.makeErrors.2).1.load
      (h.makeErrors.1.allocErrors h.makeErrors.2).2 = .ok h.makeErrors.2 :=
  Heap.load_allocErrors_new _ _

theorem Heap.make_elems (h : Heap) :
    (h.makeErrors.1.allocErrors h.makeErrors.2).1.elems h.makeErrors.2 = .ok [] := by
  simp [Heap.makeErrors, Heap.allocErrors, Heap.elems]

theorem Heap.make_frame (h : Heap) (pos : Nat) :
    Heap.Frame h.arrays.length pos h (h.makeErrors.1.allocErrors h.makeErrors.2).1 := by
  refine ⟨rfl, ⟨[h.makeErrors.2], rfl⟩, ?_⟩
  intro a arr harr
  have ha : a < h.arrays.length := (List.getElem?_eq_some_iff.mp harr).1
  refine ⟨arr, ?_, rfl, fun _ _ => rfl⟩
  show (h.arrays ++ [[]])[a]? = some arr
  rw [List.getElem?_append_left ha]
  exact harr

theorem Heap.Frame.elems_kept_of_fresh (pos : Nat) (h h1 : Heap) (t : Slice) (zs : Errors)
    (h01 : Heap.Frame h.arrays.length pos h h1) (ht : h.elems t = .ok zs) :
    h1.elems t = .ok zs := by
  obtain ⟨arr, harr, -⟩ := (Heap.elems_ok_iff h t zs).mp ht
  have ha : t.array < h.arrays.length := (List.getElem?_eq_some_iff.mp harr).1
  exact Heap.Frame.elems_kept _ pos h h1 t zs h01 ht (Or.inl (by omega))

theorem Heap.Frame.deref_kept_of_fresh (pos : Nat) (h h1 : Heap) (q : Ptr) (zs : Errors)
    (h01 : Heap.Frame h.arrays.length pos h h1) (hq : h.deref q = .ok zs) :
    h1.deref q = .ok zs := by
  obtain ⟨t, hl, ht⟩ := (Heap.deref_ok_iff h q zs).mp hq
  exact (Heap.deref_ok_iff h1 q zs).mpr
    ⟨t, Heap.Frame.load_kept _ pos h h1 q t h01 hl, Heap.Frame.elems_kept_of_fresh pos h h1 t zs h01 ht⟩


theorem New_leaf_spec (spare : Nat → Nat) (h : Heap) (p : Ptr) :
    ∃ h1 r s1, New spare h (.leaf p) = .ok (h1, r) ∧ h1.load r = .ok s1 ∧
      h1.elems s1 = .ok [p] ∧ Heap.Frame h.arrays.length 0 h h1 ∧
      h.arrays.length ≤ s1.array ∧ ∃ a, r = some a ∧ h.lists.length ≤ a := by
  obtain ⟨h1, r, s1, hrun, hl1, hs1, hF1, hpos1, hr⟩ :=
    Errors.Add_leaf_spec spare _ _ h.makeErrors.2 [] p (Heap.make_load h) (Heap.make_elems h)
  refine ⟨h1, r, s1, ?_, hl1, by simpa using hs1, ?_, ?_, ?_⟩
  · rw [New_of_ne_nil spare h _ (by simp)]
    exact hrun
  · exact Heap.Frame.trans_of_later _ _ _ _ h _ h1 (Heap.make_frame h 0) hF1
      (Or.inl ⟨rfl, Nat.zero_le _⟩)
  · rcases hpos1 with ⟨ha, -, -⟩ | hfresh
    · rw [ha]
      exact le_of_eq rfl
    · have : (h.makeErrors.1.allocErrors h.makeErrors.2).1.arrays.length =
          h.arrays.length + 1 := by
        simp [Heap.makeErrors, Heap.allocErrors]
      omega
  · refine ⟨_, hr, ?_⟩
    simp [Heap.makeErrors, Heap.allocErrors]

theorem New_other_spec (spare : Nat → Nat) (h : Heap) (str : String) :
    ∃ h1 r s1, New spare h (.other str) = .ok (h1, r) ∧ h1.load r = .ok s1 ∧
      h1.elems s1 = .ok [some h.leaves.length] ∧
      h1.leaves = h.leaves ++ [{ message := str, templateId := none }] ∧
      ∃ a, r = some a := by
  obtain ⟨h1, r, s1, hrun, hl1, hs1, hF1, -, hr⟩ :=
    Errors.Add_other_spec spare _ _ h.makeErrors.2 [] str (Heap.make_load h) (Heap.make_elems h)
  refine ⟨h1, r, s1, ?_, hl1, by simpa using hs1, ?_, ⟨_, hr⟩⟩
  · rw [New_of_ne_nil spare h _ (by simp)]
    exact hrun
  · rw [hF1.1]
    rfl

theorem New_composite_spec (spare : Nat → Nat) (h : Heap) (c : Ptr) (ys : Errors)
    (hc : h.deref c = .ok ys) :
    ∃ h1 a s1, New spare h (.composite c) = .ok (h1, some a) ∧ h1.load (some a) = .ok s1 ∧
      h1.elems s1 = .ok ys ∧ h.lists.length ≤ a ∧ h.arrays.length ≤ s1.array ∧
      Heap.Frame h.arrays.length 0 h h1 := by
  obtain ⟨errs, hle, hee⟩ := (Heap.deref_ok_iff h c ys).mp hc
  obtain ⟨arr, harr, -⟩ := (Heap.elems_ok_iff h errs ys).mp hee
  have halt : errs.array < h.arrays.length := (List.getElem?_eq_some_iff.mp harr).1
  have hF0 := Heap.make_frame h 0
  have hle0 := Heap.Frame.load_kept _ _ h _ c errs hF0 hle
  have hee0 := Heap.Frame.elems_kept_of_fresh 0 h _ errs ys hF0 hee
  obtain ⟨h1, r, c1, zs, hrun, hl1, hc1, -, -, hF1, hpos1, hptr, hdist⟩ :=
    Errors.Add_composite_spec spare _ _ c h.makeErrors.2 errs [] ys (Heap.make_load h)
      (Heap.make_elems h) hle0 hee0
  have hzs : zs = ys := by
    have := hdist (show errs.array ≠ h.makeErrors.2.array by
      show errs.array ≠ h.arrays.length
      omega)
    simpa using this
  subst hzs
  have h0arr : (h.makeErrors.1.allocErrors h.makeErrors.2).1.arrays.length =
      h.arrays.length + 1 := by
    simp [Heap.makeErrors, Heap.allocErrors]
  have h0lists : (h.makeErrors.1.allocErrors h.makeErrors.2).1.lists.length =
      h.lists.length + 1 := by
    simp [Heap.makeErrors, Heap.allocErrors]
  have hra : ∃ a, r = some a ∧ h.lists.length ≤ a := by
    rcases hptr with hre | ⟨a, hra, hle⟩
    · exact ⟨h.lists.length, by rw [hre]; simp [Heap.makeErrors, Heap.allocErrors], le_refl _⟩
    · exact ⟨a, hra, by omega⟩
  obtain ⟨a, hra, hale⟩ := hra
  subst hra
  refine ⟨h1, a, c1, ?_, hl1, hc1, hale, ?_, ?_⟩
  · rw [New_of_ne_nil spare h _ (by simp)]
    exact hrun
  · rcases hpos1 with ⟨ha, -, -⟩ | hfresh
    · rw [ha]
      exact le_of_eq rfl
    · omega
  · exact Heap.Frame.trans_of_later _ _ _ _ h _ h1 hF0 hF1 (Or.inl ⟨rfl, Nat.zero_le _⟩)

theorem Errors.Add.loop_ptr_some (spare : Nat → Nat) (errs : Slice) :
    ∀ (n i : Nat) (h : Heap) (a : Nat) (h1 : Heap) (r : Ptr),
      Errors.Add.loop spare errs i n h (some a) = .ok (h1, r) → ∃ b, r = some b := by
  intro n
  induction n with
  | zero =>
    intro i h a h1 r hrun
    simp [Errors.Add.loop] at hrun
    exact ⟨a, hrun.2.symm⟩
  | succ n ih =>
    intro i h a h1 r hrun
    simp only [Errors.Add.loop, bind, Except.bind] at hrun
    cases hidx : h.index errs i with
    | error q => simp [hidx] at hrun
    | ok err =>
      cases hl : h.load (some a) with
      | error q => simp [hidx, hl] at hrun
      | ok cur =>
        cases happ : h.append spare cur err with
        | error q => simp [hidx, hl, happ] at hrun
        | ok res =>
          simp only [hidx, hl, happ, Heap.allocErrors] at hrun
          exact ih _ _ _ h1 r hrun

theorem New_ptr_some (spare : Nat → Nat) (h : Heap) (v : Value) (h1 : Heap) (r : Ptr)
    (hv : v ≠ Value.nil) (hrun : New spare h v = .ok (h1, r)) : ∃ b, r = some b := by
  cases v with
  | nil => exact absurd rfl hv
  | leaf p =>
    obtain ⟨h2, r2, -, hspec, -, -, -, -, a, hra, -⟩ := New_leaf_spec spare h p
    rw [hspec] at hrun
    cases hrun
    exact ⟨a, hra⟩
  | other s =>
    obtain ⟨h2, r2, -, hspec, -, -, -, a, hra⟩ := New_other_spec spare h s
    rw [hspec] at hrun
    cases hrun
    exact ⟨a, hra⟩
  | composite p =>
    rw [New_of_ne_nil spare h _ (by simp)] at hrun
    cases hp : (h.makeErrors.1.allocErrors h.makeErrors.2).1.load p with
    | error q =>
      simp [Errors.Add, Heap.allocErrors, hp, bind, Except.bind, pure, Except.pure] at hrun
      simp [Heap.allocErrors] at hp
      simp [hp] at hrun
    | ok errs =>
      simp [Errors.Add, Heap.allocErrors, bind, Except.bind, pure, Except.pure] at hrun
      simp [Heap.allocErrors] at hp
      simp [hp] at hrun
      exact Errors.Add.loop_ptr_some spare errs _ _ _ _ h1 r hrun


/-! ## Claims -/

/-- C1 (the code at a failing input): with a first operand that is neither a
`*Errors` nor a `*Error`, here the value rendered "x", and the leaf `A` as second
operand, `Add` returns a Composite whose elements are `A, A`: the first operand
is dropped, no leaf wrapping it is created, and the second operand is added
twice. -/
theorem C1_Add_drops_other_first_operand (spare : Nat → Nat) :
    ∃ h1 r, Add spare heapAB (.other "x") (.leaf (some 0)) = .ok (h1, r) ∧
      h1.deref r = .ok [some 0, some 0] ∧ h1.leaves = heapAB.leaves := by
  obtain ⟨h1, a, s1, hnew, hl1, hs1, hF1, -, -⟩ := New_leaf_spec spare heapAB (some 0)
  obtain ⟨h2, r, s2, hrun, hl2, hs2, hF2, -, -⟩ :=
    Errors.Add_leaf_spec spare h1 a s1 [some 0] (some 0) hl1 hs1
  exact ⟨h2, r, by simp [Add, hnew, hrun, bind, Except.bind],
    (Heap.deref_ok_iff h2 r _).mpr ⟨s2, hl2, by simpa using hs2⟩, hF2.1.trans hF1.1⟩

/-- C2 (the code at the failing inputs): on an absent receiver, `Errors.Add` of
any non-nil leaf panics with a nil pointer dereference, in every heap: the
receiver is replaced by `New(nil)`, which is nil again, and then dereferenced. -/
theorem C2_Add_leaf_on_absent_receiver_panics (spare : Nat → Nat) (h : Heap) (l : Nat) :
    Errors.Add spare h none (.leaf (some l)) = .error Panic.nilDereference := by
  simp [Errors.Add, New, Heap.load, bind, Except.bind, pure, Except.pure]

/-- C3 (the code at a failing input): with `c := New(A).Add(B).Add(A)` and
`r1 := c.Add(B)`, the Composites `c` and `r1` hold `[A, B, A]` and `[A, B, A, B]`
and share one underlying array of capacity 4. `c.Add(r1)` then returns
`[A, B, A, A, B, A, A]` and not `[A, B, A]` followed by `[A, B, A, B]`: the first
`append` overwrites the last element of `r1` before the loop has read it. -/
theorem C3_Add_composite_sharing_array :
    (do
      let (h1, a) ← New goSpare heapAB (.leaf (some 0))
      let (h2, ab) ← Errors.Add goSpare h1 a (.leaf (some 1))
      let (h3, c) ← Errors.Add goSpare h2 ab (.leaf (some 0))
      let (h4, r1) ← Errors.Add goSpare h3 c (.leaf (some 1))
      let xs ← h4.deref c
      let ys ← h4.deref r1
      let (h5, r) ← Errors.Add goSpare h4 c (.composite r1)
      let zs ← h5.deref r
      pure (xs, ys, zs)) =
    .ok ([some 0, some 1, some 0], [some 0, some 1, some 0, some 1],
      [some 0, some 1, some 0, some 0, some 1, some 0, some 0]) := by
  simp [New, Errors.Add, Errors.Add.loop, Heap.makeErrors, Heap.allocErrors, Heap.append,
    Heap.load, Heap.elems, Heap.deref, Heap.index, goSpare, heapAB, bind, Except.bind, pure,
    Except.pure]

/-- C4: for every receiver `e`, absent or present, `e.Add(nil)` returns `e` itself
and leaves the heap, hence the elements of `e`, unchanged; in particular the
absent receiver yields the absent Composite. -/
theorem C4_Add_nil_is_noop (spare : Nat → Nat) (h : Heap) (e : Ptr) :
    Errors.Add spare h e Value.nil = .ok (h, e) ∧
      Errors.Add spare h none Value.nil = .ok (h, none) :=
  ⟨Errors.Add_nil spare h e, Errors.Add_nil spare h none⟩

/-- C5 (the code at the failing inputs): a nil `*Errors` carried in the value
parameter makes `Errors.Add` panic with a nil pointer dereference for every
receiver, and makes `New` panic as well: the interface value is not nil, so the
`*Errors` case ranges over the dereferenced nil pointer. -/
theorem C5_absent_Composite_argument_panics (spare : Nat → Nat) (h : Heap) (e : Ptr) :
    Errors.Add spare h e (.composite none) = .error Panic.nilDereference ∧
      New spare h (.composite none) = .error Panic.nilDereference := by
  constructor
  · cases e <;> simp [Errors.Add, New, Heap.load, bind, Except.bind, pure, Except.pure]
  · simp [Errors.Add, New, Heap.load, Heap.allocErrors, bind, Except.bind, pure, Except.pure]

theorem String.intercalate_go_eq_foldl (sep : String) (rest : List String) :
    ∀ acc : String, String.intercalate.go acc sep rest =
      rest.foldl (fun b s => b ++ sep ++ s) acc := by
  induction rest with
  | nil => intro acc; rfl
  | cons x rest ih => intro acc; simp [String.intercalate.go, ih]

theorem strings.Join_eq_intercalate (elems : List String) (sep : String) :
    strings.Join elems sep = sep.intercalate elems := by
  match elems with
  | [] => rfl
  | [x] => rfl
  | x :: y :: rest =>
    simp [strings.Join, String.intercalate, String.intercalate.go,
      String.intercalate_go_eq_foldl]

theorem Errors.Error.loop_collects (h : Heap) (ps : List Ptr) (ms : List String)
    (hms : List.Forall₂ (fun p m => Error.Error h p = .ok m) ps ms) :
    ∀ ret, Errors.Error.loop h ps ret = .ok (ret ++ ms) := by
  induction hms with
  | nil => intro ret; simp [Errors.Error.loop]
  | cons hpm _ ih =>
    intro ret
    simp [Errors.Error.loop, hpm, bind, Except.bind, ih]

/-- C6: `New(nil)` returns the absent Composite in every heap and changes
nothing; `New` of a non-nil leaf, of a present Composite and of any other value
returns a present (non-nil) Composite; and whenever `New` returns the absent
Composite its argument was the nil interface. -/
theorem C6_New_absent_only_for_nil (spare : Nat → Nat) (h : Heap) (l : Nat) (c : Ptr)
    (ys : Errors) (s : String) (hc : h.deref c = .ok ys) :
    New spare h Value.nil = .ok (h, none) ∧
    (∃ h1 a, New spare h (.leaf (some l)) = .ok (h1, some a)) ∧
    (∃ h1 a, New spare h (.composite c) = .ok (h1, some a)) ∧
    (∃ h1 a, New spare h (.other s) = .ok (h1, some a)) ∧
    (∀ v h1, New spare h v = .ok (h1, none) → v = Value.nil) := by
  refine ⟨New_nil spare h, ?_, ?_, ?_, ?_⟩
  · obtain ⟨h1, r, -, hnew, -, -, -, -, a, hra, -⟩ := New_leaf_spec spare h (some l)
    exact ⟨h1, a, by rw [hnew, hra]⟩
  · obtain ⟨h1, a, -, hnew, -⟩ := New_composite_spec spare h c ys hc
    exact ⟨h1, a, hnew⟩
  · obtain ⟨h1, r, -, hnew, -, -, -, a, hra⟩ := New_other_spec spare h s
    exact ⟨h1, a, by rw [hnew, hra]⟩
  · intro v h1 hv
    by_contra hne
    obtain ⟨b, hb⟩ := New_ptr_some spare h v h1 none hne hv
    simp at hb

theorem C6_New_absent_only_for_nil_witness :
    New goSpare heapEx Value.nil = .ok (heapEx, none) ∧
    (∃ h1 a, New goSpare heapEx (.leaf (some 1)) = .ok (h1, some a)) ∧
    (∃ h1 a, New goSpare heapEx (.composite (some 0)) = .ok (h1, some a)) ∧
    (∃ h1 a, New goSpare heapEx (.other "bogus") = .ok (h1, some a)) ∧
    (∀ v h1, New goSpare heapEx v = .ok (h1, none) → v = Value.nil) :=
  C6_New_absent_only_for_nil goSpare heapEx 1 (some 0) [some 0, some 1] "bogus"
    (by simp [Heap.deref, Heap.load, Heap.elems, heapEx, bind, Except.bind])

/-- C7: for a non-nil leaf `l`, `New(l)` is a present Composite whose only
element is the pointer `l` itself, and no leaf is created; for a present
Composite `c` with elements `ys`, `New(c)` is a present Composite at an address
that was not allocated before (so it is not `c`), with the elements `ys`, and `c`
still has the elements `ys`; for any other value, `New` yields exactly one
element, a newly created leaf whose message is the rendering of the value and
that carries no template identity. -/
theorem C7_New_elements (spare : Nat → Nat) (h : Heap) (l : Nat) (c : Ptr) (ys : Errors)
    (s : String) (hc : h.deref c = .ok ys) :
    (∃ h1 r, New spare h (.leaf (some l)) = .ok (h1, r) ∧ h1.deref r = .ok [some l] ∧
      h1.leaves = h.leaves) ∧
    (∃ h1 r, New spare h (.composite c) = .ok (h1, r) ∧ h1.deref r = .ok ys ∧ r ≠ c ∧
      h.deref r = .error Panic.invalidAddress ∧ h1.deref c = .ok ys) ∧
    (∃ h1 r p, New spare h (.other s) = .ok (h1, r) ∧ h1.deref r = .ok [p] ∧
      h1.derefLeaf p = .ok { message := s, templateId := none } ∧
      h.derefLeaf p = .error Panic.invalidAddress) := by
  refine ⟨?_, ?_, ?_⟩
  · obtain ⟨h1, r, s1, hnew, hl1, hs1, hF, -, -⟩ := New_leaf_spec spare h (some l)
    exact ⟨h1, r, hnew, (Heap.deref_ok_iff h1 r _).mpr ⟨s1, hl1, hs1⟩, hF.1⟩
  · obtain ⟨h1, a, s1, hnew, hl1, hs1, hle, -, hF⟩ := New_composite_spec spare h c ys hc
    refine ⟨h1, some a, hnew, (Heap.deref_ok_iff h1 _ _).mpr ⟨s1, hl1, hs1⟩, ?_,
      Heap.deref_fresh h a hle, Heap.Frame.deref_kept_of_fresh 0 h h1 c ys hF hc⟩
    intro hca
    rw [← hca, Heap.deref_fresh h a hle] at hc
    simp at hc
  · obtain ⟨h1, r, s1, hnew, hl1, hs1, hleaves, -⟩ := New_other_spec spare h s
    refine ⟨h1, r, some h.leaves.length, hnew, (Heap.deref_ok_iff h1 r _).mpr ⟨s1, hl1, hs1⟩,
      ?_, ?_⟩
    · simp [Heap.derefLeaf, hleaves]
    · simp [Heap.derefLeaf]

theorem C7_New_elements_witness :
    (∃ h1 r, New goSpare heapEx (.leaf (some 1)) = .ok (h1, r) ∧
      h1.deref r = .ok [some 1] ∧ h1.leaves = heapEx.leaves) ∧
    (∃ h1 r, New goSpare heapEx (.composite (some 0)) = .ok (h1, r) ∧
      h1.deref r = .ok [some 0, some 1] ∧ r ≠ some 0 ∧
      heapEx.deref r = .error Panic.invalidAddress ∧
      h1.deref (some 0) = .ok [some 0, some 1]) ∧
    (∃ h1 r p, New goSpare heapEx (.other "bogus") = .ok (h1, r) ∧
      h1.deref r = .ok [p] ∧
      h1.derefLeaf p = .ok { message := "bogus", templateId := none } ∧
      heapEx.derefLeaf p = .error Panic.invalidAddress) :=
  C7_New_elements goSpare heapEx 1 (some 0) [some 0, some 1] "bogus"
    (by simp [Heap.deref, Heap.load, Heap.elems, heapEx, bind, Except.bind])

/-- C8: `e.Error()` is the empty string for the absent Composite, and for a
present Composite with elements `ps` whose `Error()` messages are `ms` (in the
same order) it is `ms` joined with one newline between consecutive messages. -/
theorem C8_Error_joins_messages (h : Heap) (e : Ptr) (ps : Errors) (ms : List String)
    (he : h.deref e = .ok ps)
    (hms : List.Forall₂ (fun p m => Error.Error h p = .ok m) ps ms) :
    Errors.Error h none = .ok "" ∧ Errors.Error h e = .ok ("\n".intercalate ms) := by
  constructor
  · simp [Errors.Error, pure, Except.pure]
  · have hne := Heap.ne_none_of_deref h e ps he
    simp [Errors.Error, hne, he, Errors.Error.loop_collects h ps ms hms, bind, Except.bind, pure,
      Except.pure, strings.Join_eq_intercalate]

theorem C8_Error_joins_messages_witness :
    Errors.Error heapEx none = .ok "" ∧ Errors.Error heapEx (some 3) = .ok "B\nA\nB" :=
  C8_Error_joins_messages heapEx (some 3) [some 1, some 0, some 1] ["B", "A", "B"]
    (by simp [Heap.deref, Heap.load, Heap.elems, heapEx, bind, Except.bind])
    (by simp [Error.Error, Heap.derefLeaf, heapEx, bind, Except.bind, pure, Except.pure])

/-- C9: if the receiver `e` is absent and `ee` is the nil error, `e.Is(ee)` is
true; if `e` is absent and `ee` is not nil, or `e` is not absent and `ee` is nil,
`e.Is(ee)` is false, whatever the heap and the leaf matcher. -/
theorem C9_Is_nil_cases (Is : Heap → Value → Value → Bool) (h : Heap) (e : Ptr) (ee : Value) :
    (e = none → ee = Value.nil → Errors.Is Is h e ee = .ok true) ∧
    (e = none → ee ≠ Value.nil → Errors.Is Is h e ee = .ok false) ∧
    (e ≠ none → ee = Value.nil → Errors.Is Is h e ee = .ok false) := by
  refine ⟨?_, ?_, ?_⟩
  · intro he hee
    unfold Errors.Is
    simp [he, hee, pure, Except.pure]
  · intro he hee
    unfold Errors.Is
    simp [he, hee, pure, Except.pure]
  · intro he hee
    unfold Errors.Is
    simp [he, hee, pure, Except.pure]

theorem C9_Is_nil_cases_witness :
    Errors.Is (fun _ _ _ => true) heapAB none Value.nil = .ok true ∧
    Errors.Is (fun _ _ _ => true) heapAB none (.leaf (some 0)) = .ok false ∧
    Errors.Is (fun _ _ _ => true) heapEx (some 4) Value.nil = .ok false :=
  ⟨(C9_Is_nil_cases (fun _ _ _ => true) heapAB none Value.nil).1 rfl rfl,
    (C9_Is_nil_cases (fun _ _ _ => true) heapAB none (.leaf (some 0))).2.1 rfl (by simp),
    (C9_Is_nil_cases (fun _ _ _ => true) heapEx (some 4) Value.nil).2.2 (by simp) rfl⟩

/-- C10 (the code at the failing input): for an absent receiver and an absent
Composite passed as the error argument (a nil `*Errors` inside a non-nil
interface), `Errors.Is` returns false, whatever the heap and the leaf matcher. -/
theorem C10_Is_absent_absent_Composite_false (Is : Heap → Value → Value → Bool) (h : Heap) :
    Errors.Is Is h none (.composite none) = .ok false := by
  rw [Errors.Is]
  simp [pure, Except.pure]

/-! ## `Errors.Is` -/

theorem Errors.Is_not_composite (Is : Heap → Value → Value → Bool) (h : Heap) (e : Ptr)
    (xs : Errors) (ee : Value) (he : h.deref e = .ok xs) (hnil : ee ≠ Value.nil)
    (hc : ∀ p, ee ≠ Value.composite p) :
    Errors.Is Is h e ee = .ok (xs.any (fun err => Is h (.leaf err) ee)) := by
  have hne : e ≠ none := Heap.ne_none_of_deref h e xs he
  cases ee with
  | nil => exact absurd rfl hnil
  | composite p => exact absurd rfl (hc p)
  | leaf p =>
    unfold Errors.Is
    simp [hne, he, bind, Except.bind, pure, Except.pure]
  | other s =>
    unfold Errors.Is
    simp [hne, he, bind, Except.bind, pure, Except.pure]

theorem Errors.Is.loop_any (Is : Heap → Value → Value → Bool) (h : Heap) (e : Ptr)
    (xs : Errors) (he : h.deref e = .ok xs) (errs : List Ptr) :
    Errors.Is.loop Is h e errs =
      .ok (errs.any (fun y => xs.any (fun x => Is h (.leaf x) (.leaf y)))) := by
  induction errs with
  | nil =>
    unfold Errors.Is.loop
    simp [pure, Except.pure]
  | cons y rest ih =>
    unfold Errors.Is.loop
    rw [Errors.Is_not_composite Is h e xs (.leaf y) he (by simp) (by simp), ih]
    cases hy : xs.any (fun x => Is h (.leaf x) (.leaf y)) <;>
      simp [hy, bind, Except.bind, pure, Except.pure]

theorem Errors.Is_composite (Is : Heap → Value → Value → Bool) (h : Heap) (e ee : Ptr)
    (xs ys : Errors) (he : h.deref e = .ok xs) (hee : h.deref ee = .ok ys) :
    Errors.Is Is h e (.composite ee) =
      .ok (ys.any (fun y => xs.any (fun x => Is h (.leaf x) (.leaf y)))) := by
  have hne : e ≠ none := Heap.ne_none_of_deref h e xs he
  unfold Errors.Is
  simp [hne, hee, bind, Except.bind, Errors.Is.loop_any Is h e xs he]


/-- C11: for a present Composite `e` with elements `xs` and a non-nil error `ee`
that is not a Composite, `e.Is(ee)` returns, and it is true if and only if some
element `x` of `e` satisfies the leaf matcher `Is(x, ee)`. -/
theorem C11_Is_leaf_argument_iff_any_element (Is : Heap → Value → Value → Bool) (h : Heap)
    (e : Ptr) (xs : Errors) (ee : Value) (he : h.deref e = .ok xs) (hnil : ee ≠ Value.nil)
    (hc : ∀ p, ee ≠ Value.composite p) :
    ∃ b, Errors.Is Is h e ee = .ok b ∧
      (b = true ↔ ∃ x, x ∈ xs ∧ Is h (.leaf x) ee = true) := by
  refine ⟨_, Errors.Is_not_composite Is h e xs ee he hnil hc, ?_⟩
  simp [List.any_eq_true]

theorem C11_Is_leaf_argument_iff_any_element_witness :
    ∃ b, Errors.Is (fun _ x y => decide (x = y)) heapEx (some 0) (.leaf (some 1)) = .ok b ∧
      (b = true ↔ ∃ x, x ∈ [some 0, some 1] ∧
        (fun _ x y => decide (x = y)) heapEx (Value.leaf x) (Value.leaf (some 1)) = true) :=
  C11_Is_leaf_argument_iff_any_element (fun _ x y => decide (x = y)) heapEx (some 0)
    [some 0, some 1] (.leaf (some 1))
    (by simp [Heap.deref, Heap.load, Heap.elems, heapEx, bind, Except.bind]) (by simp) (by simp)

/-- C12: cross-aggregate matching. For present Composites `X` (elements `xs`)
and `Y` (elements `ys`), `X.Is(Y)` returns, and it is true if and only if there
are an element `x` of `X` and an element `y` of `Y` with leaf matcher `Is(x, y)`
true; so it is false when no such pair exists. -/
theorem C12_Is_composite_iff_matching_pair (Is : Heap → Value → Value → Bool) (h : Heap)
    (X Y : Ptr) (xs ys : Errors) (hX : h.deref X = .ok xs) (hY : h.deref Y = .ok ys) :
    ∃ b, Errors.Is Is h X (.composite Y) = .ok b ∧
      (b = true ↔ ∃ x y, x ∈ xs ∧ y ∈ ys ∧ Is h (.leaf x) (.leaf y) = true) ∧
      ((∀ x y, x ∈ xs → y ∈ ys → Is h (.leaf x) (.leaf y) = false) → b = false) := by
  refine ⟨_, Errors.Is_composite Is h X Y xs ys hX hY, ?_, ?_⟩
  · simp only [List.any_eq_true]
    constructor
    · rintro ⟨y, hy, x, hx, hxy⟩
      exact ⟨x, y, hx, hy, hxy⟩
    · rintro ⟨x, y, hx, hy, hxy⟩
      exact ⟨y, hy, x, hx, hxy⟩
  · intro hno
    rw [List.any_eq_false]
    intro y hy
    simp only [List.any_eq_true, not_exists, not_and, Bool.not_eq_true]
    intro x hx
    exact hno x y hx hy

theorem C12_Is_composite_iff_matching_pair_witness :
    ∃ b, Errors.Is (fun _ x y => decide (x = y)) heapEx (some 0) (.composite (some 1)) = .ok b ∧
      (b = true ↔ ∃ x y, x ∈ [some 0, some 1] ∧ y ∈ [some 1] ∧
        (fun _ x y => decide (x = y)) heapEx (Value.leaf x) (Value.leaf y) = true) ∧
      ((∀ x y, x ∈ [some 0, some 1] → y ∈ [some 1] →
        (fun _ x y => decide (x = y)) heapEx (Value.leaf x) (Value.leaf y) = false) →
        b = false) :=
  C12_Is_composite_iff_matching_pair (fun _ x y => decide (x = y)) heapEx (some 0) (some 1)
    [some 0, some 1] [some 1]
    (by simp [Heap.deref, Heap.load, Heap.elems, heapEx, bind, Except.bind])
    (by simp [Heap.deref, Heap.load, Heap.elems, heapEx, bind, Except.bind])

/-- C13 (the code at a failing input): with `c := Add(Add(A, B), A)` and
`r1 := Add(c, B)`, the Composites `c` and `r1` hold `[A, B, A]` and `[A, B, A, B]`
and share one underlying array of capacity 4. The free function `Add(c, r1)`
then returns `[A, B, A, A, B, A, A]` and not `[A, B, A]` followed by
`[A, B, A, B]`. -/
theorem C13_Add_operands_sharing_array :
    (do
      let (h1, ab) ← Add goSpare heapAB (.leaf (some 0)) (.leaf (some 1))
      let (h2, c) ← Add goSpare h1 (.composite ab) (.leaf (some 0))
      let (h3, r1) ← Add goSpare h2 (.composite c) (.leaf (some 1))
      let xs ← h3.deref c
      let ys ← h3.deref r1
      let (h4, r) ← Add goSpare h3 (.composite c) (.composite r1)
      let zs ← h4.deref r
      pure (xs, ys, zs)) =
    .ok ([some 0, some 1, some 0], [some 0, some 1, some 0, some 1],
      [some 0, some 1, some 0, some 0, some 1, some 0, some 0]) := by
  simp [Add, New, Errors.Add, Errors.Add.loop, Heap.makeErrors, Heap.allocErrors, Heap.append,
    Heap.load, Heap.elems, Heap.deref, Heap.index, goSpare, heapAB, bind, Except.bind, pure,
    Except.pure]

/-- C14 (counterexample): with the receiver `e` at address 4 holding `[A]`,
`e.Add(B)` returns a Composite holding `[A, B]`, but the Composite that `e`
refers to still holds `[A]`: the receiver was not mutated in place. -/
theorem C14_Add_receiver_not_mutated_counterexample :
    ∃ h1 r, Errors.Add goSpare heapEx (some 4) (.leaf (some 1)) = .ok (h1, r) ∧
      h1.deref (some 4) = .ok [some 0] ∧ h1.deref r = .ok [some 0, some 1] ∧
      h1.deref (some 4) ≠ h1.deref r := by
  refine ⟨⟨heapEx.leaves, heapEx.arrays ++ [[some 0, some 1]],
      heapEx.lists ++ [⟨6, 0, 2, 2⟩]⟩, some 7, ?_, ?_, ?_, ?_⟩
  · simp [Errors.Add, Heap.allocErrors, Heap.append, Heap.load, goSpare, heapEx, bind,
      Except.bind, pure, Except.pure]
  · simp [Heap.deref, Heap.load, Heap.elems, heapEx, bind, Except.bind]
  · simp [Heap.deref, Heap.load, Heap.elems, heapEx, bind, Except.bind]
  · simp [Heap.deref, Heap.load, Heap.elems, heapEx, bind, Except.bind]

/-- C14 (amended): `Errors.Add` leaves its receiver unchanged and returns the
grown Composite. For a present Composite `e` with elements `xs` and an argument
that is a leaf `p`, a present Composite `c` (elements `ys`) or any other value,
after `e.Add(v)` the Composite that `e` refers to still holds `xs`, and the
returned Composite starts with `xs` and has one more element (`p`, or one new
leaf wrapping the value) or `len(ys)` more elements, which are `ys` in order
whenever the underlying array of `c` is not the underlying array of `e`. -/
theorem C14_Add_returns_grown_Composite (spare : Nat → Nat) (h : Heap) (e : Ptr) (xs : Errors)
    (p : Ptr) (c : Ptr) (ys : Errors) (s : String) (he : h.deref e = .ok xs)
    (hc : h.deref c = .ok ys) :
    (∃ h1 r, Errors.Add spare h e (.leaf p) = .ok (h1, r) ∧ h1.deref e = .ok xs ∧
      h1.deref r = .ok (xs ++ [p])) ∧
    (∃ h1 r zs, Errors.Add spare h e (.composite c) = .ok (h1, r) ∧ h1.deref e = .ok xs ∧
      h1.deref r = .ok zs ∧ zs.take xs.length = xs ∧ zs.length = xs.length + ys.length ∧
      (∀ se sc, h.load e = .ok se → h.load c = .ok sc → sc.array ≠ se.array →
        zs = xs ++ ys)) ∧
    (∃ h1 r q, Errors.Add spare h e (.other s) = .ok (h1, r) ∧ h1.deref e = .ok xs ∧
      h1.deref r = .ok (xs ++ [q]) ∧
      h1.derefLeaf q = .ok { message := s, templateId := none }) := by
  obtain ⟨se, hle, hse⟩ := (Heap.deref_ok_iff h e xs).mp he
  obtain ⟨sc, hlc, hsc⟩ := (Heap.deref_ok_iff h c ys).mp hc
  refine ⟨?_, ?_, ?_⟩
  · obtain ⟨h1, r, s1, hrun, hl1, hs1, hF, -, -⟩ :=
      Errors.Add_leaf_spec spare h e se xs p hle hse
    exact ⟨h1, r, hrun, Heap.Frame.deref_kept _ _ h h1 e se xs hF hle hse (Or.inr (le_refl _)),
      (Heap.deref_ok_iff h1 r _).mpr ⟨s1, hl1, hs1⟩⟩
  · obtain ⟨h1, r, c1, zs, hrun, hl1, hc1, htake, hlen, hF, -, -, hdist⟩ :=
      Errors.Add_composite_spec spare h e c se sc xs ys hle hse hlc hsc
    refine ⟨h1, r, zs, hrun, Heap.Frame.deref_kept _ _ h h1 e se xs hF hle hse (Or.inr (le_refl _)),
      (Heap.deref_ok_iff h1 r _).mpr ⟨c1, hl1, hc1⟩, htake, hlen, ?_⟩
    intro se2 sc2 hle2 hlc2 hne
    rw [hle] at hle2
    rw [hlc] at hlc2
    cases hle2
    cases hlc2
    exact hdist hne
  · obtain ⟨h1, r, s1, hrun, hl1, hs1, hF, -, -⟩ :=
      Errors.Add_other_spec spare h e se xs s hle hse
    refine ⟨h1, r, some h.leaves.length, hrun,
      Heap.Frame.deref_kept _ _ (NewError h s).1 h1 e se xs hF hle hse (Or.inr (le_refl _)),
      (Heap.deref_ok_iff h1 r _).mpr ⟨s1, hl1, hs1⟩, ?_⟩
    have hleaves : h1.leaves = h.leaves ++ [{ message := s, templateId := none }] := by
      rw [hF.1]
      rfl
    simp [Heap.derefLeaf, hleaves]

theorem C14_Add_returns_grown_Composite_witness :
    (∃ h1 r, Errors.Add goSpare heapEx (some 5) (.leaf (some 1)) = .ok (h1, r) ∧
      h1.deref (some 5) = .ok [some 0, some 1, some 0] ∧
      h1.deref r = .ok ([some 0, some 1, some 0] ++ [some 1])) ∧
    (∃ h1 r zs, Errors.Add goSpare heapEx (some 5) (.composite (some 0)) = .ok (h1, r) ∧
      h1.deref (some 5) = .ok [some 0, some 1, some 0] ∧
      h1.deref r = .ok zs ∧ zs.take [some 0, some 1, some 0].length = [some 0, some 1, some 0] ∧
      zs.length = [some 0, some 1, some 0].length + [some 0, some 1].length ∧
      (∀ se sc, heapEx.load (some 5) = .ok se → heapEx.load (some 0) = .ok sc →
        sc.array ≠ se.array → zs = [some 0, some 1, some 0] ++ [some 0, some 1])) ∧
    (∃ h1 r q, Errors.Add goSpare heapEx (some 5) (.other "bogus") = .ok (h1, r) ∧
      h1.deref (some 5) = .ok [some 0, some 1, some 0] ∧
      h1.deref r = .ok ([some 0, some 1, some 0] ++ [q]) ∧
      h1.derefLeaf q = .ok { message := "bogus", templateId := none }) :=
  C14_Add_returns_grown_Composite goSpare heapEx (some 5) [some 0, some 1, some 0] (some 1)
    (some 0) [some 0, some 1] "bogus"
    (by simp [Heap.deref, Heap.load, Heap.elems, heapEx, bind, Except.bind])
    (by simp [Heap.deref, Heap.load, Heap.elems, heapEx, bind, Except.bind])

/-- C15: insertion order is preserved and nothing is deduplicated. For a present
Composite `e` with elements `xs` and a non-nil leaf `l`, `e.Add(l)` has the
elements `xs` followed by `l`: `xs` is an unchanged initial segment, the length
grows by exactly 1 and the number of occurrences of `l` grows by exactly 1,
whether or not `l` is already in `xs`; adding `l` twice yields two entries. -/
theorem C15_Add_leaf_appends_keeps_duplicates (spare : Nat → Nat) (h : Heap) (e : Ptr)
    (xs : Errors) (l : Nat) (he : h.deref e = .ok xs) :
    (∃ h1 r zs, Errors.Add spare h e (.leaf (some l)) = .ok (h1, r) ∧ h1.deref r = .ok zs ∧
      zs = xs ++ [some l] ∧ zs.take xs.length = xs ∧ zs.length = xs.length + 1 ∧
      zs.count (some l) = xs.count (some l) + 1) ∧
    (do
      let (h1, r1) ← Errors.Add spare h e (.leaf (some l))
      let (h2, r2) ← Errors.Add spare h1 r1 (.leaf (some l))
      h2.deref r2) = .ok (xs ++ [some l, some l]) := by
  obtain ⟨se, hle, hse⟩ := (Heap.deref_ok_iff h e xs).mp he
  obtain ⟨h1, r1, s1, hrun1, hl1, hs1, -, -, -⟩ :=
    Errors.Add_leaf_spec spare h e se xs (some l) hle hse
  obtain ⟨h2, r2, s2, hrun2, hl2, hs2, -, -, -⟩ :=
    Errors.Add_leaf_spec spare h1 r1 s1 (xs ++ [some l]) (some l) hl1 hs1
  have hr1 : h1.deref r1 = .ok (xs ++ [some l]) := (Heap.deref_ok_iff h1 r1 _).mpr ⟨s1, hl1, hs1⟩
  have hr2 : h2.deref r2 = .ok (xs ++ [some l] ++ [some l]) :=
    (Heap.deref_ok_iff h2 r2 _).mpr ⟨s2, hl2, hs2⟩
  constructor
  · exact ⟨h1, r1, xs ++ [some l], hrun1, hr1, rfl, by simp, by simp, by simp⟩
  · simp [hrun1, hrun2, hr2, bind, Except.bind]

theorem C15_Add_leaf_appends_keeps_duplicates_witness :
    (∃ h1 r zs, Errors.Add goSpare heapEx (some 3) (.leaf (some 1)) = .ok (h1, r) ∧
      h1.deref r = .ok zs ∧
      zs = [some 1, some 0, some 1] ++ [some 1] ∧
      zs.take [some 1, some 0, some 1].length = [some 1, some 0, some 1] ∧
      zs.length = [some 1, some 0, some 1].length + 1 ∧
      zs.count (some 1) = [some 1, some 0, some 1].count (some 1) + 1) ∧
    (do
      let (h1, r1) ← Errors.Add goSpare heapEx (some 3) (.leaf (some 1))
      let (h2, r2) ← Errors.Add goSpare h1 r1 (.leaf (some 1))
      h2.deref r2) = .ok ([some 1, some 0, some 1] ++ [some 1, some 1]) :=
  C15_Add_leaf_appends_keeps_duplicates goSpare heapEx (some 3) [some 1, some 0, some 1] 1
    (by simp [Heap.deref, Heap.load, Heap.elems, heapEx, bind, Except.bind])

/-- C16: the leaf matching rule. Two Leaf Errors `x` and `y` match if and only
if both carry the same template identity, or neither carries one and their
messages are equal. Hence for any factory `f` (such as `Newf("%d")`), `f(1)`
matches `f(2)` and `f()`, whatever the rendering; two factories with different
template identities give leaves that do not match; and two factories made by
successive calls of `Newf` have different identities, so `Is(f1(1), f2(1))` is
false. -/
theorem C16_leaf_matching_rule (x y : Error) (sprintf : String → List Int → String)
    (f f1 f2 : Errf) (next : Nat) (format1 format2 : String)
    (hdiff : f1.templateId ≠ f2.templateId) :
    (Is x y = true ↔
      (∃ t, x.templateId = some t ∧ y.templateId = some t) ∨
        (x.templateId = none ∧ y.templateId = none ∧ x.message = y.message)) ∧
    Is (f.call sprintf [1]) (f.call sprintf [2]) = true ∧
    Is (f.call sprintf [1]) (f.call sprintf []) = true ∧
    Is (f1.call sprintf [1]) (f2.call sprintf [1]) = false ∧
    Is ((Newf next format1).2.call sprintf [1])
      ((Newf (Newf next format1).1 format2).2.call sprintf [1]) = false := by
  refine ⟨?_, ?_, ?_, ?_, ?_⟩
  · cases hx : x.templateId with
    | none => cases hy : y.templateId <;> simp [Is, hx, hy]
    | some i =>
      cases hy : y.templateId with
      | none => simp [Is, hx, hy]
      | some j =>
        simp [Is, hx, hy]
        exact eq_comm
  · simp [Is, Errf.call]
  · simp [Is, Errf.call]
  · simp [Is, Errf.call, hdiff]
  · simp [Is, Errf.call, Newf]

theorem C16_leaf_matching_rule_witness :
    (Is { message := "1", templateId := some 7 } { message := "2", templateId := some 7 } = true ↔
      (∃ t, (some 7 : Option Nat) = some t ∧ (some 7 : Option Nat) = some t) ∨
        ((some 7 : Option Nat) = none ∧ (some 7 : Option Nat) = none ∧ "1" = "2")) ∧
    Is (Errf.call (fun s _ => s) ⟨7, "%d"⟩ [1]) (Errf.call (fun s _ => s) ⟨7, "%d"⟩ [2]) = true ∧
    Is (Errf.call (fun s _ => s) ⟨7, "%d"⟩ [1]) (Errf.call (fun s _ => s) ⟨7, "%d"⟩ []) = true ∧
    Is (Errf.call (fun s _ => s) ⟨3, "bogusf1 %d"⟩ [1])
      (Errf.call (fun s _ => s) ⟨4, "bogusf2 %d"⟩ [1]) = false ∧
    Is ((Newf 0 "bogusf1 %d").2.call (fun s _ => s) [1])
      ((Newf (Newf 0 "bogusf1 %d").1 "bogusf2 %d").2.call (fun s _ => s) [1]) = false :=
  C16_leaf_matching_rule { message := "1", templateId := some 7 }
    { message := "2", templateId := some 7 } (fun s _ => s) ⟨7, "%d"⟩ ⟨3, "bogusf1 %d"⟩
    ⟨4, "bogusf2 %d"⟩ 0 "bogusf1 %d" "bogusf2 %d" (by decide)

/-- C17: when the first operand `v` of the free function `Add` is the nil
interface or a value that is neither a `*Errors` nor a `*Error`, it is discarded
and the second operand is added twice: for a non-nil leaf `l`, `Add(v, l)` has
the elements `l, l`, and for a present Composite `c` with elements `ys`,
`Add(v, c)` has the elements `ys` followed by `ys`; no leaf is created for
`v`. -/
theorem C17_Add_other_first_adds_second_twice (spare : Nat → Nat) (h : Heap) (v : Value)
    (l : Nat) (c : Ptr) (ys : Errors) (hv : v = Value.nil ∨ ∃ s, v = Value.other s)
    (hc : h.deref c = .ok ys) :
    (∃ h1 r, Add spare h v (.leaf (some l)) = .ok (h1, r) ∧
      h1.deref r = .ok [some l, some l] ∧ h1.leaves = h.leaves) ∧
    (∃ h1 r zs, Add spare h v (.composite c) = .ok (h1, r) ∧ h1.deref r = .ok zs ∧
      zs = ys ++ ys ∧ zs.length = 2 * ys.length ∧ h1.leaves = h.leaves) := by
  have hAdd : ∀ ee, Add spare h v ee = (do
      let (h1, errs) ← New spare h ee
      Errors.Add spare h1 errs ee) := by
    intro ee
    rcases hv with hv | ⟨s, hv⟩ <;> subst hv <;> rfl
  constructor
  · obtain ⟨h1, a, s1, hnew, hl1, hs1, hF1, -, -⟩ := New_leaf_spec spare h (some l)
    obtain ⟨h2, r, s2, hrun, hl2, hs2, hF2, -, -⟩ :=
      Errors.Add_leaf_spec spare h1 a s1 [some l] (some l) hl1 hs1
    exact ⟨h2, r, by simp [hAdd, hnew, hrun, bind, Except.bind],
      (Heap.deref_ok_iff h2 r _).mpr ⟨s2, hl2, by simpa using hs2⟩, hF2.1.trans hF1.1⟩
  · obtain ⟨errs, hle, hee⟩ := (Heap.deref_ok_iff h c ys).mp hc
    obtain ⟨arr, harr, -⟩ := (Heap.elems_ok_iff h errs ys).mp hee
    have halt : errs.array < h.arrays.length := (List.getElem?_eq_some_iff.mp harr).1
    obtain ⟨h1, a, s1, hnew, hl1, hs1, -, hfresh, hF1⟩ := New_composite_spec spare h c ys hc
    obtain ⟨h2, r, c2, zs, hrun, hl2, hc2, -, -, hF2, -, -, hdist⟩ :=
      Errors.Add_composite_spec spare h1 (some a) c s1 errs ys ys hl1 hs1
        (Heap.Frame.load_kept _ _ h h1 c errs hF1 hle)
        (Heap.Frame.elems_kept_of_fresh 0 h h1 errs ys hF1 hee)
    have hzs : zs = ys ++ ys := hdist (by omega)
    exact ⟨h2, r, zs, by simp [hAdd, hnew, hrun, bind, Except.bind],
      (Heap.deref_ok_iff h2 r _).mpr ⟨c2, hl2, hc2⟩, hzs, by rw [hzs]; simp; omega,
      hF2.1.trans hF1.1⟩

theorem C17_Add_other_first_adds_second_twice_witness :
    (∃ h1 r, Add goSpare heapEx (.other "x") (.leaf (some 1)) = .ok (h1, r) ∧
      h1.deref r = .ok [some 1, some 1] ∧ h1.leaves = heapEx.leaves) ∧
    (∃ h1 r zs, Add goSpare heapEx (.other "x") (.composite (some 0)) = .ok (h1, r) ∧
      h1.deref r = .ok zs ∧
      zs = [some 0, some 1] ++ [some 0, some 1] ∧ zs.length = 2 * [some 0, some 1].length ∧
      h1.leaves = heapEx.leaves) :=
  C17_Add_other_first_adds_second_twice goSpare heapEx (.other "x") 1 (some 0) [some 0, some 1]
    (Or.inr ⟨"x", rfl⟩) (by simp [Heap.deref, Heap.load, Heap.elems, heapEx, bind, Except.bind])

/-- C18: a present Composite `e` with zero elements matches nothing. `e.Is(ee)`
is false for the nil error, for every leaf and for every present Composite `x`;
`x.Is(e)` is false for every present Composite `x`; in particular `e.Is(e)` is
false. A present Composite `c` with at least one element, all of whose elements
match themselves under the leaf matcher, has `c.Is(c)` true. -/
theorem C18_empty_Composite_matches_nothing (Is : Heap → Value → Value → Bool) (h : Heap)
    (e x c : Ptr) (xs cs : Errors) (he : h.deref e = .ok []) (hx : h.deref x = .ok xs)
    (hc : h.deref c = .ok cs) (hcs : cs ≠ [])
    (hrefl : ∀ y, y ∈ cs → Is h (.leaf y) (.leaf y) = true) :
    Errors.Is Is h e Value.nil = .ok false ∧
    (∀ p, Errors.Is Is h e (.leaf p) = .ok false) ∧
    Errors.Is Is h e (.composite x) = .ok false ∧
    Errors.Is Is h x (.composite e) = .ok false ∧
    Errors.Is Is h e (.composite e) = .ok false ∧
    Errors.Is Is h c (.composite c) = .ok true := by
  have hne : e ≠ none := Heap.ne_none_of_deref h e [] he
  refine ⟨?_, ?_, ?_, ?_, ?_, ?_⟩
  · unfold Errors.Is
    simp [hne, pure, Except.pure]
  · intro p
    rw [Errors.Is_not_composite Is h e [] (.leaf p) he (by simp) (by simp)]
    simp
  · rw [Errors.Is_composite Is h e x [] xs he hx]
    simp
  · rw [Errors.Is_composite Is h x e xs [] hx he]
    simp
  · rw [Errors.Is_composite Is h e e [] [] he he]
    simp
  · rw [Errors.Is_composite Is h c c cs cs hc hc]
    cases cs with
    | nil => exact absurd rfl hcs
    | cons y rest => simp [hrefl y (by simp)]

theorem C18_empty_Composite_matches_nothing_witness :
    Errors.Is (fun _ a b => decide (a = b)) heapEx (some 2) Value.nil = .ok false ∧
    (∀ p, Errors.Is (fun _ a b => decide (a = b)) heapEx (some 2) (.leaf p) = .ok false) ∧
    Errors.Is (fun _ a b => decide (a = b)) heapEx (some 2) (.composite (some 4)) = .ok false ∧
    Errors.Is (fun _ a b => decide (a = b)) heapEx (some 4) (.composite (some 2)) = .ok false ∧
    Errors.Is (fun _ a b => decide (a = b)) heapEx (some 2) (.composite (some 2)) = .ok false ∧
    Errors.Is (fun _ a b => decide (a = b)) heapEx (some 0) (.composite (some 0)) = .ok true :=
  C18_empty_Composite_matches_nothing (fun _ a b => decide (a = b)) heapEx (some 2) (some 4)
    (some 0) [some 0] [some 0, some 1]
    (by simp [Heap.deref, Heap.load, Heap.elems, heapEx, bind, Except.bind])
    (by simp [Heap.deref, Heap.load, Heap.elems, heapEx, bind, Except.bind])
    (by simp [Heap.deref, Heap.load, Heap.elems, heapEx, bind, Except.bind])
    (by simp) (by simp)

/-- C19: symmetry on Composites. If the leaf matcher is symmetric on leaves,
then for present Composites `a` (elements `xs`) and `b` (elements `ys`), `a.Is(b)`
and `b.Is(a)` both return and are equal. The recursion of `Errors.Is` descends
one level only: its recursive calls are made on the leaf elements of the
argument, whose rank is 0, below the rank 1 of a Composite argument, and such a
call returns the result of the loop over the receiver with no further call of
`Errors.Is`. -/
theorem C19_Is_symmetric_on_Composites (Is : Heap → Value → Value → Bool) (h : Heap)
    (a b : Ptr) (xs ys : Errors) (ha : h.deref a = .ok xs) (hb : h.deref b = .ok ys)
    (hsym : ∀ x y, Is h (.leaf x) (.leaf y) = Is h (.leaf y) (.leaf x)) :
    (∃ r, Errors.Is Is h a (.composite b) = .ok r ∧ Errors.Is Is h b (.composite a) = .ok r) ∧
    (∀ y, (Value.leaf y).rank = 0 ∧ (Value.leaf y).rank < (Value.composite b).rank ∧
      Errors.Is Is h a (.leaf y) = .ok (xs.any (fun x => Is h (.leaf x) (.leaf y)))) := by
  constructor
  · refine ⟨_, Errors.Is_composite Is h a b xs ys ha hb, ?_⟩
    rw [Errors.Is_composite Is h b a ys xs hb ha]
    congr 1
    rw [Bool.eq_iff_iff]
    simp only [List.any_eq_true]
    constructor
    · rintro ⟨x, hx, y, hy, hxy⟩
      exact ⟨y, hy, x, hx, by rw [hsym]; exact hxy⟩
    · rintro ⟨y, hy, x, hx, hxy⟩
      exact ⟨x, hx, y, hy, by rw [hsym]; exact hxy⟩
  · intro y
    exact ⟨rfl, by simp [Value.rank],
      Errors.Is_not_composite Is h a xs (.leaf y) ha (by simp) (by simp)⟩

theorem C19_Is_symmetric_on_Composites_witness :
    (∃ r, Errors.Is (fun _ a b => decide (a = b)) heapEx (some 4) (.composite (some 0)) = .ok r ∧
      Errors.Is (fun _ a b => decide (a = b)) heapEx (some 0) (.composite (some 4)) = .ok r) ∧
    (∀ y, (Value.leaf y).rank = 0 ∧ (Value.leaf y).rank < (Value.composite (some 0)).rank ∧
      Errors.Is (fun _ a b => decide (a = b)) heapEx (some 4) (.leaf y) =
        .ok ([some 0].any (fun x => (fun _ a b => decide (a = b)) heapEx (Value.leaf x)
          (Value.leaf y)))) :=
  C19_Is_symmetric_on_Composites (fun _ a b => decide (a = b)) heapEx (some 4) (some 0) [some 0]
    [some 0, some 1]
    (by simp [Heap.deref, Heap.load, Heap.elems, heapEx, bind, Except.bind])
    (by simp [Heap.deref, Heap.load, Heap.elems, heapEx, bind, Except.bind])
    (by intro x y; simp [eq_comm])

end GoErrors
